import Mathlib

/-!
Shallow embedding of the yamalert validation engine.

The repository contains three parallel implementations of the engine.  The
primary one lives in src/app.py (called V1 below): an expression scanner
returning a plain Bool, a rule-set structural validator, a routing-config
validator, and the api_validate_yaml aggregator with its expression-counting
loop.  src/v2/app.py and src/v3/app.py share a second scanner (called V2
below) that returns a pair of a Bool and a message and adds position-tagged
failures, a back-tick string delimiter and leading/trailing comparison
heuristics.  The v3 validator code is character-for-character the v2 one, so a
single V2 embedding covers both.

Fallible Python operations are embedded with Except: an attribute access such
as calling get on a value that is not a dict becomes an error value labelled
AttributeError, and a set operation on an unhashable value becomes an error
value labelled TypeError, matching the exception class the interpreter raises
there.
-/

/-- Generic parsed-document tree: the value shapes produced by yaml parsing
that the validators inspect (null, booleans, integers, strings, sequences and
string-keyed mappings).  Floats and non-string mapping keys never occur in
the fields the claims concern and are not modelled. -/
inductive Node where
  | null : Node
  | bool : Bool → Node
  | int : Int → Node
  | str : String → Node
  | seq : List Node → Node
  | map : List (String × Node) → Node

/-- Python truthiness of a parsed value: None, False, 0, the empty string and
empty containers are falsy, everything else is truthy. -/
def Node.truthy : Node → Bool
  | .null => false
  | .bool b => b
  | .int n => n != 0
  | .str s => s ≠ ""
  | .seq xs => !xs.isEmpty
  | .map kvs => !kvs.isEmpty

/-- Whether a value may be placed into a Python set: containers (list, dict)
are unhashable, scalars are hashable. -/
def Node.hashable : Node → Bool
  | .seq _ => false
  | .map _ => false
  | _ => true

def Node.isStr : Node → Bool
  | .str _ => true
  | _ => false

def Node.isSeq : Node → Bool
  | .seq _ => true
  | _ => false

def Node.isMap : Node → Bool
  | .map _ => true
  | _ => false

/-- Python equality as used on set members.  The validators only ever compare
hashable values (a hashability check guards every use below, mirroring the
TypeError a set probe raises first), so container cases are never reached and
compare unequal.  Python counts True equal to 1 and False equal to 0, which
the bool/int cross cases reproduce. -/
def nodeEq : Node → Node → Bool
  | .null, .null => true
  | .bool a, .bool b => a == b
  | .bool a, .int b => (if a then (1 : Int) else 0) == b
  | .int a, .bool b => a == (if b then (1 : Int) else 0)
  | .int a, .int b => a == b
  | .str a, .str b => a == b
  | _, _ => false

/-- Membership of a value in a Python set, modelled as a list probed with
Python equality. -/
def nodeMem (v : Node) (l : List Node) : Bool :=
  l.any (fun w => nodeEq v w)

/-- Dictionary lookup by string key (first match). -/
def mapLookup (k : String) : List (String × Node) → Option Node
  | [] => none
  | (k', v) :: rest => if k' = k then some v else mapLookup k rest

/-- The Python membership test for a dictionary key. -/
def hasKey (k : String) (m : List (String × Node)) : Bool :=
  (mapLookup k m).isSome

/-- Python str() of a value, as interpolated into diagnostic messages.  The
container cases are unreachable in the validators: container values crash a
set probe (TypeError) before any message is formatted, so their rendering is
a placeholder. -/
def pyStr : Node → String
  | .null => "None"
  | .bool true => "True"
  | .bool false => "False"
  | .int n => toString n
  | .str s => s
  | .seq _ => "[...]"
  | .map _ => "\x7b...\x7d"

/-- The characters Python str.strip removes (the ASCII whitespace set). -/
def pyWsChar (c : Char) : Bool :=
  c = ' ' || c = '\x09' || c = '\x0a' || c = '\x0d' || c = '\x0b' || c = '\x0c'

/-- Python str.strip: drop whitespace from both ends. -/
def pyStrip (s : String) : String :=
  ⟨((s.data.dropWhile pyWsChar).reverse.dropWhile pyWsChar).reverse⟩

/-- The control-character test of both scanners: any codepoint below 0x20. -/
def hasControlChar (s : String) : Bool :=
  s.data.any (fun c => c.toNat < 0x20)

/-- The V1 identifier test: the expression contains a letter, digit,
underscore or colon. -/
def hasIdentChar (s : String) : Bool :=
  s.data.any (fun c => c.isAlpha || c.isDigit || c = '_' || c = ':')

/-- Comparison-operator characters rejected at the start or end of an
expression by the V2 scanner heuristics. -/
def isCmpChar (c : Char) : Bool :=
  c == '=' || c == '<' || c == '>' || c == '!'

/-- Whether the (already stripped) expression starts with a comparison
operator. -/
def startsWithCmp (t : String) : Bool :=
  match t.data with
  | [] => false
  | c :: _ => isCmpChar c

/-- Whether the (already stripped) expression ends with a comparison
operator. -/
def endsWithCmp (t : String) : Bool :=
  match t.data.getLast? with
  | none => false
  | some c => isCmpChar c

/-- The mutable state of one scanner pass: three signed delimiter counters,
the current string delimiter if any, and the escape flag. -/
structure ScanState where
  brace : Int
  bracket : Int
  paren : Int
  inString : Option Char
  escape : Bool
deriving Repr, DecidableEq

/-- The scanner state at the start of a pass. -/
def initState : ScanState :=
  { brace := 0, bracket := 0, paren := 0, inString := none, escape := false }

namespace V1

/-- The character loop of is_promql_syntax_valid in src/app.py.  Escapes
consume one character; inside a string only the matching delimiter matters;
double and single quotes open strings; delimiters adjust their counter and a
negative counter fails the scan at once (the function returns False with no
message, hence Option). -/
def scanAux (st : ScanState) : List Char → Option ScanState
  | [] => some st
  | c :: cs =>
    if st.escape then scanAux { st with escape := false } cs
    else if c = '\x5c' then scanAux { st with escape := true } cs
    else
      match st.inString with
      | some d =>
        if c = d then scanAux { st with inString := none } cs
        else scanAux st cs
      | none =>
        if c = '\x22' ∨ c = '\x27' then scanAux { st with inString := some c } cs
        else
          let st' :=
            if c = '\x7b' then { st with brace := st.brace + 1 }
            else if c = '\x7d' then { st with brace := st.brace - 1 }
            else if c = '[' then { st with bracket := st.bracket + 1 }
            else if c = ']' then { st with bracket := st.bracket - 1 }
            else if c = '(' then { st with paren := st.paren + 1 }
            else if c = ')' then { st with paren := st.paren - 1 }
            else st
          if st'.brace < 0 ∨ st'.bracket < 0 ∨ st'.paren < 0 then none
          else scanAux st' cs

/-- is_promql_syntax_valid from src/app.py: empty or whitespace-only fails,
control characters fail, then the balance scan runs, then the end-of-input
checks, then the identifier-character heuristic. -/
def is_promql_syntax_valid (expr : String) : Bool :=
  if expr = "" ∨ pyStrip expr = "" then false
  else if hasControlChar expr then false
  else
    match scanAux initState expr.data with
    | none => false
    | some st =>
      if st.inString.isSome then false
      else if st.brace ≠ 0 ∨ st.bracket ≠ 0 ∨ st.paren ≠ 0 then false
      else hasIdentChar expr

end V1

namespace V2

/-- Position-tagged failure message for an unexpected closing brace, exactly
as formatted in src/v2/app.py. -/
def closeBraceMsg (i : Nat) : String :=
  "Unexpected closing brace \x27\x7d\x27 at position " ++ toString i

/-- Position-tagged failure message for an unexpected closing bracket. -/
def closeBracketMsg (i : Nat) : String :=
  "Unexpected closing bracket \x27]\x27 at position " ++ toString i

/-- Position-tagged failure message for an unexpected closing parenthesis. -/
def closeParenMsg (i : Nat) : String :=
  "Unexpected closing parenthesis \x27)\x27 at position " ++ toString i

/-- One iteration of the character loop of is_promql_syntax_valid in
src/v2/app.py (identical in src/v3/app.py), at character c and position i.
Compared to V1 it also treats a back-tick as a string delimiter, and a
closing delimiter that drives its counter negative returns a position-tagged
error immediately. -/
def scanStep (st : ScanState) (i : Nat) (c : Char) : Except String ScanState :=
  if st.escape then .ok { st with escape := false }
  else if c = '\x5c' then .ok { st with escape := true }
  else
    match st.inString with
    | some d =>
      if c = d then .ok { st with inString := none } else .ok st
    | none =>
      if c = '\x22' ∨ c = '\x27' then .ok { st with inString := some c }
      else if c = '\x60' then .ok { st with inString := some c }
      else if c = '\x7b' then .ok { st with brace := st.brace + 1 }
      else if c = '\x7d' then
        if st.brace - 1 < 0 then .error (closeBraceMsg i)
        else .ok { st with brace := st.brace - 1 }
      else if c = '[' then .ok { st with bracket := st.bracket + 1 }
      else if c = ']' then
        if st.bracket - 1 < 0 then .error (closeBracketMsg i)
        else .ok { st with bracket := st.bracket - 1 }
      else if c = '(' then .ok { st with paren := st.paren + 1 }
      else if c = ')' then
        if st.paren - 1 < 0 then .error (closeParenMsg i)
        else .ok { st with paren := st.paren - 1 }
      else .ok st

/-- The character loop of is_promql_syntax_valid in src/v2/app.py: one
scanStep per character, position counting up, an error aborting the pass. -/
def scanAux (st : ScanState) (i : Nat) : List Char → Except String ScanState
  | [] => .ok st
  | c :: cs =>
    match scanStep st i c with
    | .error e => .error e
    | .ok st' => scanAux st' (i + 1) cs

/-- is_promql_syntax_valid from src/v2/app.py (and identically src/v3/app.py):
the pair of the validity flag and the failure message. -/
def is_promql_syntax_valid (expr : String) : Bool × String :=
  if expr = "" ∨ pyStrip expr = "" then (false, "Empty expression")
  else if hasControlChar expr then (false, "Contains invalid control characters")
  else
    match scanAux initState 0 expr.data with
    | .error m => (false, m)
    | .ok st =>
      if st.inString.isSome then (false, "Unclosed string literal")
      else if st.brace ≠ 0 then (false, "Unclosed braces \x7b\x7d")
      else if st.bracket ≠ 0 then (false, "Unclosed brackets []")
      else if st.paren ≠ 0 then (false, "Unclosed parentheses ()")
      else if startsWithCmp (pyStrip expr) then
        (false, "Expression cannot start with a comparison operator")
      else if endsWithCmp (pyStrip expr) then
        (false, "Expression cannot end with a comparison operator")
      else (true, "")

end V2

/-- Calling is_promql_syntax_valid (V1) on an arbitrary Python value, as the
counting loop of api_validate_yaml does: a falsy argument short-circuits the
first check and returns False, a truthy string is scanned, and a truthy
non-string raises AttributeError at the strip call. -/
def promqlPy : Node → Except String Bool
  | .str s => .ok (V1.is_promql_syntax_valid s)
  | v => if v.truthy then .error "AttributeError" else .ok false

/-- Prefix shared by all per-rule diagnostics of validate_prometheus_rules. -/
def ruleMsg (i j : Nat) (tail : String) : String :=
  "Group #" ++ toString i ++ " Rule #" ++ toString j ++ tail

/-- The expr block of one rule in validate_prometheus_rules (src/app.py): a
missing expr key is a diagnostic; otherwise the value, replaced by the empty
string when falsy, is scanned, a truthy non-string value raising
AttributeError at the strip call inside the scanner. -/
def checkExpr (i j : Nat) (m : List (String × Node)) : Except String (List String) :=
  match mapLookup "expr" m with
  | none => .ok [ruleMsg i j " missing \x27expr\x27"]
  | some ev =>
    match (if ev.truthy then ev else Node.str "") with
    | .str s =>
      if V1.is_promql_syntax_valid s then .ok []
      else .ok [ruleMsg i j (" has invalid PromQL: " ++ s)]
    | _ => .error "AttributeError"

/-- The five optional-field type checks of one rule in
validate_prometheus_rules, in source order: alert, record and for must be
strings when present, labels and annotations must be dicts when present. -/
def checkRuleTypes (i j : Nat) (m : List (String × Node)) : List String :=
  (match mapLookup "alert" m with
   | some v => if v.isStr then [] else [ruleMsg i j " \x27alert\x27 must be a string"]
   | none => []) ++
  (match mapLookup "record" m with
   | some v => if v.isStr then [] else [ruleMsg i j " \x27record\x27 must be a string"]
   | none => []) ++
  (match mapLookup "for" m with
   | some v => if v.isStr then [] else [ruleMsg i j " \x27for\x27 must be a string"]
   | none => []) ++
  (match mapLookup "labels" m with
   | some v => if v.isMap then [] else [ruleMsg i j " \x27labels\x27 must be a dict"]
   | none => []) ++
  (match mapLookup "annotations" m with
   | some v => if v.isMap then [] else [ruleMsg i j " \x27annotations\x27 must be a dict"]
   | none => [])

/-- One rule of validate_prometheus_rules: a non-dict rule is a single
diagnostic and the rule is skipped; otherwise the expr block runs, then the
type checks. -/
def checkRule (i j : Nat) (r : Node) : Except String (List String) :=
  match r with
  | .map m =>
    match checkExpr i j m with
    | .error e => .error e
    | .ok e1 => .ok (e1 ++ checkRuleTypes i j m)
  | _ => .ok [ruleMsg i j " must be a dict"]

/-- The rules loop of one group, 1-based j. -/
def checkRules (i j : Nat) : List Node → Except String (List String)
  | [] => .ok []
  | r :: rs =>
    match checkRule i j r with
    | .error e => .error e
    | .ok e1 =>
      match checkRules i (j + 1) rs with
      | .error e => .error e
      | .ok e2 => .ok (e1 ++ e2)

/-- One group of validate_prometheus_rules: a non-dict group is a single
diagnostic; a missing name is a diagnostic but the group is still checked; a
missing or non-list rules field is a diagnostic and skips the rules loop. -/
def checkGroup (i : Nat) (g : Node) : Except String (List String) :=
  match g with
  | .map m =>
    let nameErr := if hasKey "name" m then [] else ["Group #" ++ toString i ++ " missing \x27name\x27"]
    match mapLookup "rules" m with
    | none => .ok (nameErr ++ ["Group #" ++ toString i ++ " missing \x27rules\x27"])
    | some rv =>
      match rv with
      | .seq rs =>
        match checkRules i 1 rs with
        | .error e => .error e
        | .ok es => .ok (nameErr ++ es)
      | _ => .ok (nameErr ++ ["Group #" ++ toString i ++ " \x27rules\x27 must be a list"])
  | _ => .ok ["Group #" ++ toString i ++ " must be a dict"]

/-- The groups loop, 1-based i. -/
def checkGroups (i : Nat) : List Node → Except String (List String)
  | [] => .ok []
  | g :: gs =>
    match checkGroup i g with
    | .error e => .error e
    | .ok e1 =>
      match checkGroups (i + 1) gs with
      | .error e => .error e
      | .ok e2 => .ok (e1 ++ e2)

/-- validate_prometheus_rules from src/app.py. -/
def validate_prometheus_rules (doc : Node) : Except String (List String) :=
  match doc with
  | .map m =>
    match mapLookup "groups" m with
    | none => .ok ["Missing \x27groups\x27 key"]
    | some gv =>
      match gv with
      | .seq gs => checkGroups 1 gs
      | _ => .ok ["\x27groups\x27 must be a list"]
  | _ => .ok ["Prometheus rules must be a dict"]

/-- The duplicate-name diagnostic of validate_alertmanager_config, with the
name rendered by Python string interpolation. -/
def dupMsg (n : Node) : String :=
  "Duplicate receiver name \x27" ++ pyStr n ++ "\x27"

/-- The receivers loop of validate_alertmanager_config (src/app.py), 1-based
idx, threading the set of names seen so far: a non-dict receiver and a
missing name are diagnostics; otherwise the name value is probed against the
set (an unhashable value raising TypeError there) and a hit appends one
duplicate diagnostic; the name is always added to the set.  Returns the
diagnostics in order together with the final name set. -/
def receiverLoop (idx : Nat) (names : List Node) : List Node → Except String (List String × List Node)
  | [] => .ok ([], names)
  | r :: rs =>
    match r with
    | .map m =>
      match mapLookup "name" m with
      | none =>
        match receiverLoop (idx + 1) names rs with
        | .error e => .error e
        | .ok (ds, ns) => .ok (("Receiver #" ++ toString idx ++ " missing \x27name\x27") :: ds, ns)
      | some name =>
        if name.hashable then
          if nodeMem name names then
            match receiverLoop (idx + 1) names rs with
            | .error e => .error e
            | .ok (ds, ns) => .ok (dupMsg name :: ds, ns)
          else
            receiverLoop (idx + 1) (names ++ [name]) rs
        else .error "TypeError: unhashable type"
    | _ =>
      match receiverLoop (idx + 1) names rs with
      | .error e => .error e
      | .ok (ds, ns) => .ok (("Receiver #" ++ toString idx ++ " must be a dict") :: ds, ns)

/-- The trailing inhibit_rules shape check of validate_alertmanager_config: a
present non-list value is one diagnostic. -/
def inhibitErrs (m : List (String × Node)) : List String :=
  match mapLookup "inhibit_rules" m with
  | none => []
  | some v => if v.isSeq then [] else ["\x27inhibit_rules\x27 must be a list"]

/-- validate_alertmanager_config from src/app.py.  The route block coerces a
falsy route to an empty dict before the shape check; the receivers block
coerces a falsy receivers to an empty list; after the loop the reference
check re-reads the raw route value and calls get on it, which raises
AttributeError when that value is not a dict, and probes the receiver
reference against the name set, which raises TypeError when it is
unhashable. -/
def validate_alertmanager_config (doc : Node) : Except String (List String) :=
  match doc with
  | .map m =>
    let routeErrs :=
      match mapLookup "route" m with
      | none => ["Missing \x27route\x27"]
      | some rv =>
        match (if rv.truthy then rv else Node.map []) with
        | .map rm => if hasKey "receiver" rm then [] else ["Route missing \x27receiver\x27"]
        | _ => ["\x27route\x27 must be a dict"]
    match mapLookup "receivers" m with
    | none => .ok (routeErrs ++ ["Missing \x27receivers\x27"] ++ inhibitErrs m)
    | some rcvV =>
      match (if rcvV.truthy then rcvV else Node.seq []) with
      | .seq rs =>
        match receiverLoop 1 [] rs with
        | .error e => .error e
        | .ok (ds, names) =>
          match mapLookup "route" m with
          | none => .ok (routeErrs ++ ds ++ inhibitErrs m)
          | some rv =>
            match rv with
            | .map rm =>
              let rr := (mapLookup "receiver" rm).getD .null
              if rr.truthy then
                if rr.hashable then
                  if nodeMem rr names then .ok (routeErrs ++ ds ++ inhibitErrs m)
                  else .ok (routeErrs ++ ds ++
                    ["Route references unknown receiver \x27" ++ pyStr rr ++ "\x27"] ++ inhibitErrs m)
                else .error "TypeError: unhashable type"
              else .ok (routeErrs ++ ds ++ inhibitErrs m)
            | _ => .error "AttributeError"
      | _ => .ok (routeErrs ++ ["\x27receivers\x27 must be a list"] ++ inhibitErrs m)
  | _ => .ok ["Alertmanager config must be a dict"]

/-- The expression read by the counting loop of api_validate_yaml: the expr
value of a dict rule, None otherwise. -/
def exprOf (r : Node) : Node :=
  match r with
  | .map m => (mapLookup "expr" m).getD .null
  | _ => .null

/-- One step of the PromQL-counting loop in api_validate_yaml (src/app.py):
a truthy expression bumps the checked counter and, when the scan rejects it,
the invalid counter.  The loop sits inside a bare try/except, so a crash
inside the scanner keeps the counts accumulated so far: the error branch
carries them. -/
def countRule (acc : Nat × Nat) (r : Node) : Except (Nat × Nat) (Nat × Nat) :=
  if (exprOf r).truthy then
    match promqlPy (exprOf r) with
    | .error _ => .error (acc.1 + 1, acc.2)
    | .ok b => .ok (acc.1 + 1, if b then acc.2 else acc.2 + 1)
  else .ok acc

/-- The inner rules loop of the counting pass. -/
def countRules (acc : Nat × Nat) : List Node → Except (Nat × Nat) (Nat × Nat)
  | [] => .ok acc
  | r :: rs =>
    match countRule acc r with
    | .error a => .error a
    | .ok a => countRules a rs

/-- One group of the counting pass.  The loop reads the rules field with get
coerced by an or to an empty list; iterating a truthy string or dict yields
strings, which are skipped by the dict test, while a truthy number or
boolean is not iterable and raises, and a non-dict group raises at the get
call. -/
def countGroup (acc : Nat × Nat) (g : Node) : Except (Nat × Nat) (Nat × Nat) :=
  match g with
  | .map m =>
    match (if ((mapLookup "rules" m).getD .null).truthy
           then (mapLookup "rules" m).getD .null else Node.seq []) with
    | .seq rs => countRules acc rs
    | .str _ => .ok acc
    | .map _ => .ok acc
    | _ => .error acc
  | _ => .error acc

/-- The outer groups loop of the counting pass. -/
def countGroups (acc : Nat × Nat) : List Node → Except (Nat × Nat) (Nat × Nat)
  | [] => .ok acc
  | g :: gs =>
    match countGroup acc g with
    | .error a => .error a
    | .ok a => countGroups a gs

/-- The body of the counting pass of api_validate_yaml (src/app.py): groups
read with get coerced by an or to an empty list; iterating a truthy non-list
raises at once (string and dict iteration yield key strings whose get call
raises, numbers and booleans are not iterable), and a non-dict document
raises at the get call. -/
def countTop (doc : Node) : Except (Nat × Nat) (Nat × Nat) :=
  match doc with
  | .map m =>
    match (if ((mapLookup "groups" m).getD .null).truthy
           then (mapLookup "groups" m).getD .null else Node.seq []) with
    | .seq gs => countGroups (0, 0) gs
    | _ => .error (0, 0)
  | _ => .error (0, 0)

/-- The counting loop sits inside a bare try/except pass, so whether the
body finished or crashed, the counts reached so far are what the report
serializes. -/
def exCounts : Except (Nat × Nat) (Nat × Nat) → Nat × Nat
  | .ok a => a
  | .error a => a

/-- The whole counting pass of api_validate_yaml (src/app.py): the pair
checked, invalid as left behind by the loop, crash or no crash. -/
def countExprsV1 (doc : Node) : Nat × Nat :=
  exCounts (countTop doc)

/-- The serialized validation report of api_validate_yaml. -/
structure Report where
  valid : Bool
  errors : List String
  promql_checked : Nat
  promql_invalid : Nat
deriving Repr, DecidableEq

/-- load_yaml from src/app.py: a parser failure is re-raised as a ValueError
whose message prefixes the parser message with Invalid YAML.  The raw parse
itself is a standard-library capability and is passed in as an Except. -/
def load_yaml (raw : Except String Node) : Except String Node :=
  match raw with
  | .ok d => .ok d
  | .error e => .error ("Invalid YAML: " ++ e)

/-- api_validate_yaml from src/app.py, from the parse result on: a parse
failure is the terminal report; the rule type runs
validate_prometheus_rules (whose crash propagates) and then the counting
pass; any other type runs validate_alertmanager_config (whose crash
propagates) with zero counters.  The valid flag is emptiness of the error
list. -/
def api_validate_yaml (raw : Except String Node) (ttype : String) : Except String Report :=
  match load_yaml raw with
  | .error ve => .ok { valid := false, errors := [ve], promql_checked := 0, promql_invalid := 0 }
  | .ok doc =>
    if ttype = "rule" then
      match validate_prometheus_rules doc with
      | .error exc => .error exc
      | .ok errs =>
        let c := countExprsV1 doc
        .ok { valid := errs.isEmpty, errors := errs, promql_checked := c.1, promql_invalid := c.2 }
    else
      match validate_alertmanager_config doc with
      | .error exc => .error exc
      | .ok errs =>
        .ok { valid := errs.isEmpty, errors := errs, promql_checked := 0, promql_invalid := 0 }

/-- Claim C1.  The claim states that no exception propagates out of
validate_document and that a route value that is not a mapping, combined
with a present receivers sequence, is converted into a report error.  The
code contradicts this: after diagnosing the non-mapping route it re-reads
the raw route value and calls get on it in the reference check, which
raises AttributeError, so the call crashes instead of returning a report.
This theorem evaluates the embedded code at that failing input, at the
validate_document (api_validate_yaml) level. -/
theorem validate_route_nonmapping_crash :
    api_validate_yaml (Except.ok (Node.map
      [("route", Node.seq [Node.str "x"]),
       ("receivers", Node.seq [Node.map [("name", Node.str "a")]])])) "alertmanager" =
    Except.error "AttributeError" := by rfl

/-- Claim C3.  Scanning the expression with a closing brace inside a quoted
label value succeeds in both scanner variants: grouping delimiters are inert
while the scanner is in string state, so the expression balances. -/
theorem scan_string_state_brace :
    V1.is_promql_syntax_valid "up\x7bjob=\x22a\x22\x7d == 0" = true ∧
    V2.is_promql_syntax_valid "up\x7bjob=\x22a\x22\x7d == 0" = (true, "") := by
  exact ⟨by rfl, by rfl⟩

/-- Counterexample to claim C6.  Three receivers named x produce two
duplicate diagnostics, not the exactly one the claim demands for any number
of repeats: the loop emits one diagnostic per occurrence beyond the first. -/
theorem duplicate_diag_three_repeats :
    validate_alertmanager_config (Node.map
      [("route", Node.map [("receiver", Node.str "x")]),
       ("receivers", Node.seq
         [Node.map [("name", Node.str "x")],
          Node.map [("name", Node.str "x")],
          Node.map [("name", Node.str "x")]])]) =
    Except.ok ["Duplicate receiver name \x27x\x27", "Duplicate receiver name \x27x\x27"] := by rfl

/-- Counterexample to claim C7.  A rule-set document whose single group has
an empty name value still yields a report with valid true: the validator
only tests presence of the name key, never non-emptiness of its value. -/
theorem valid_with_empty_group_name :
    api_validate_yaml (Except.ok (Node.map [("groups", Node.seq
      [Node.map [("name", Node.str ""), ("rules", Node.seq [])]])])) "rule" =
    Except.ok { valid := true, errors := [], promql_checked := 0, promql_invalid := 0 } := by rfl

/-- Claim C8.  Every parse failure yields exactly the terminal report: valid
false, the single parse-error message as the only error, and both expression
counters zero, for either document kind, with no structural or expression
checks run. -/
theorem parse_failure_terminal_report (msg ttype : String) :
    api_validate_yaml (Except.error msg) ttype =
    Except.ok { valid := false, errors := ["Invalid YAML: " ++ msg],
                promql_checked := 0, promql_invalid := 0 } := by rfl

/-- Counterexample to claim C10.  A receiver whose name value is a mapping
does not participate in duplicate detection like a string: probing the name
set with an unhashable value raises TypeError, so the validator crashes
instead of collecting the name, while the same document with string names
returns a report. -/
theorem receiver_mapping_name_crash :
    validate_alertmanager_config (Node.map
      [("route", Node.map [("receiver", Node.str "a")]),
       ("receivers", Node.seq [Node.map [("name", Node.map [])]])]) =
      Except.error "TypeError: unhashable type" ∧
    validate_alertmanager_config (Node.map
      [("route", Node.map [("receiver", Node.str "a")]),
       ("receivers", Node.seq [Node.map [("name", Node.str "a")]])]) =
      Except.ok [] := by
  exact ⟨by rfl, by rfl⟩

namespace V2

/-- Splitting a scan at any point: scanning a concatenation runs the prefix
first and, unless it failed, continues on the suffix with the position
advanced by the prefix length. -/
theorem scanAux_append (xs ys : List Char) : ∀ (st : ScanState) (i : Nat),
    scanAux st i (xs ++ ys) =
      match scanAux st i xs with
      | .ok st2 => scanAux st2 (i + xs.length) ys
      | .error e => Except.error e := by
  induction xs with
  | nil =>
    intro st i
    simp [scanAux]
  | cons c cs ih =>
    intro st i
    rw [List.cons_append]
    simp only [scanAux]
    cases h : scanStep st i c with
    | error e => simp
    | ok st' =>
      simp only []
      rw [ih st' (i + 1)]
      have : i + 1 + cs.length = i + (c :: cs).length := by
        simp [List.length_cons]; omega
      rw [this]

end V2

/-- Claim C4.  If the expression splits as a prefix, a closing delimiter and
a remainder, the prefix scan reaches a state outside string mode with the
escape flag clear, and the delimiter would drive its counter negative, then
the whole scan fails with exactly the position-tagged message for that
delimiter at the prefix length — independently of the remainder, which is
never scanned. -/
theorem scan_unexpected_closing (s : String) (pre rest : List Char) (c : Char) (st : ScanState)
    (hsplit : s.data = pre ++ c :: rest)
    (hpre : V2.scanAux initState 0 pre = Except.ok st)
    (hesc : st.escape = false) (hstr : st.inString = none)
    (hctl : hasControlChar s = false) (hne : ¬ (s = "" ∨ pyStrip s = ""))
    (hclose : (c = '\x7d' ∧ st.brace ≤ 0) ∨ (c = ']' ∧ st.bracket ≤ 0) ∨
              (c = ')' ∧ st.paren ≤ 0)) :
    V2.is_promql_syntax_valid s =
      (false, if c = '\x7d' then V2.closeBraceMsg pre.length
              else if c = ']' then V2.closeBracketMsg pre.length
              else V2.closeParenMsg pre.length) := by
  have hstep : V2.scanStep st pre.length c =
      Except.error (if c = '\x7d' then V2.closeBraceMsg pre.length
                    else if c = ']' then V2.closeBracketMsg pre.length
                    else V2.closeParenMsg pre.length) := by
    rcases hclose with ⟨hc, hb⟩ | ⟨hc, hb⟩ | ⟨hc, hb⟩ <;> subst hc <;>
      simp [V2.scanStep, hesc, hstr] <;> omega
  have hscan : V2.scanAux initState 0 s.data =
      Except.error (if c = '\x7d' then V2.closeBraceMsg pre.length
                    else if c = ']' then V2.closeBracketMsg pre.length
                    else V2.closeParenMsg pre.length) := by
    rw [hsplit, V2.scanAux_append, hpre]
    simp only [Nat.zero_add]
    rw [V2.scanAux, hstep]
  unfold V2.is_promql_syntax_valid
  rw [if_neg hne, if_neg (by simp [hctl]), hscan]

/-- Witness for claim C4: the one-character expression consisting of a
closing parenthesis fails at position 0. -/
theorem scan_unexpected_closing_witness :
    V2.is_promql_syntax_valid ")" =
      (false, "Unexpected closing parenthesis \x27)\x27 at position 0") := by
  have := scan_unexpected_closing ")" [] [] ')' initState (by rfl) (by rfl) (by rfl)
    (by rfl) (by rfl) (by decide) (Or.inr (Or.inr ⟨rfl, by decide⟩))
  simpa using this

/-- Claim C5.  The expression consisting of a comparison operator and a
number is rejected with the leading-comparison message, and in general every
expression whose stripped text starts with a comparison-operator character is
rejected by the V2 scanner: every branch of the function other than its
final success branch returns false, and the success branch is unreachable
under the hypothesis.  The V1 scanner has no such heuristic (its weaker
identifier-character check accepts this input), which the spec records as
the acceptable-minimum variant. -/
theorem scan_leading_comparison :
    V2.is_promql_syntax_valid ">80" =
      (false, "Expression cannot start with a comparison operator") ∧
    ∀ s : String, startsWithCmp (pyStrip s) = true →
      (V2.is_promql_syntax_valid s).fst = false := by
  refine ⟨by rfl, ?_⟩
  intro s h
  unfold V2.is_promql_syntax_valid
  repeat first | rfl | split

/-- Witness for claim C5: a concrete instantiation of the universally
quantified part. -/
theorem scan_leading_comparison_witness :
    (V2.is_promql_syntax_valid "<x").fst = false :=
  scan_leading_comparison.2 "<x" (by rfl)

/-- Counting preserves the invariant that the invalid counter never exceeds
the checked counter: a step bumps checked by one and invalid by at most one,
and the crash branch bumps only checked. -/
theorem countRule_le (acc : Nat × Nat) (r : Node) (h : acc.2 ≤ acc.1) :
    (exCounts (countRule acc r)).2 ≤ (exCounts (countRule acc r)).1 := by
  unfold countRule
  split
  · split
    · simp [exCounts]; omega
    · simp only [exCounts]
      split <;> omega
  · simpa [exCounts] using h

/-- The rules loop preserves the counter invariant. -/
theorem countRules_le (l : List Node) : ∀ acc : Nat × Nat, acc.2 ≤ acc.1 →
    (exCounts (countRules acc l)).2 ≤ (exCounts (countRules acc l)).1 := by
  induction l with
  | nil => intro acc h; simpa [countRules, exCounts] using h
  | cons r rs ih =>
    intro acc h
    simp only [countRules]
    cases hcr : countRule acc r with
    | error a =>
      have := countRule_le acc r h
      rw [hcr] at this
      simpa [exCounts] using this
    | ok a =>
      have := countRule_le acc r h
      rw [hcr] at this
      simp only [exCounts] at this
      exact ih a this

/-- A whole group preserves the counter invariant. -/
theorem countGroup_le (acc : Nat × Nat) (g : Node) (h : acc.2 ≤ acc.1) :
    (exCounts (countGroup acc g)).2 ≤ (exCounts (countGroup acc g)).1 := by
  unfold countGroup
  split
  · split
    · exact countRules_le _ _ h
    · simpa [exCounts] using h
    · simpa [exCounts] using h
    · simpa [exCounts] using h
  · simpa [exCounts] using h

/-- The groups loop preserves the counter invariant. -/
theorem countGroups_le (l : List Node) : ∀ acc : Nat × Nat, acc.2 ≤ acc.1 →
    (exCounts (countGroups acc l)).2 ≤ (exCounts (countGroups acc l)).1 := by
  induction l with
  | nil => intro acc h; simpa [countGroups, exCounts] using h
  | cons g gs ih =>
    intro acc h
    simp only [countGroups]
    cases hcg : countGroup acc g with
    | error a =>
      have := countGroup_le acc g h
      rw [hcg] at this
      simpa [exCounts] using this
    | ok a =>
      have := countGroup_le acc g h
      rw [hcg] at this
      simp only [exCounts] at this
      exact ih a this

/-- The invalid count of a whole counting pass never exceeds its checked
count, crash or no crash. -/
theorem countExprs_le (doc : Node) : (countExprsV1 doc).2 ≤ (countExprsV1 doc).1 := by
  unfold countExprsV1 countTop
  cases doc
  case map m =>
    split <;> split <;>
      first
        | exact countGroups_le _ (0, 0) (Nat.le_refl 0)
        | simp [exCounts, countGroups, countRules, exprOf]
  all_goals simp [exCounts]

/-- Claim C9.  Every report returned by api_validate_yaml satisfies
0 ≤ promql_invalid ≤ promql_checked: the invalid counter is only bumped in
a step that also bumped the checked counter, and a crash swallowed by the
try/except keeps the partial counts without breaking the ordering. -/
theorem invalid_le_checked (raw : Except String Node) (ttype : String) (r : Report)
    (h : api_validate_yaml raw ttype = Except.ok r) :
    0 ≤ r.promql_invalid ∧ r.promql_invalid ≤ r.promql_checked := by
  refine ⟨Nat.zero_le _, ?_⟩
  unfold api_validate_yaml load_yaml at h
  cases raw with
  | error e =>
    simp only [] at h
    cases h
    simp
  | ok doc =>
    simp only [] at h
    split at h
    · split at h
      · cases h
      · cases h
        simpa using countExprs_le doc
    · split at h
      · cases h
      · cases h
        simp

/-- Witness for claim C9: a rule document with one checked, zero invalid
expressions. -/
theorem invalid_le_checked_witness :
    0 ≤ (Report.mk true [] 1 0).promql_invalid ∧
    (Report.mk true [] 1 0).promql_invalid ≤ (Report.mk true [] 1 0).promql_checked :=
  invalid_le_checked (Except.ok (Node.map [("groups", Node.seq
    [Node.map [("name", Node.str "g"), ("rules", Node.seq
      [Node.map [("expr", Node.str "up == 0")]])]])])) "rule" _ (by rfl)

/-- A rule that contributes no diagnostic: a mapping whose expr value is a
truthy string accepted by the V1 scanner. -/
def GoodRule (r : Node) : Prop :=
  ∃ m s, r = Node.map m ∧ mapLookup "expr" m = some (Node.str s) ∧
    (Node.str s).truthy = true ∧ V1.is_promql_syntax_valid s = true

/-- A group that contributes no diagnostic so far as structure goes: a
mapping with a name key and a rules sequence all of whose rules are good. -/
def GoodGroup (g : Node) : Prop :=
  ∃ m rs, g = Node.map m ∧ hasKey "name" m = true ∧
    mapLookup "rules" m = some (Node.seq rs) ∧ ∀ r ∈ rs, GoodRule r

/-- A rule that produced no diagnostics is good: any missing expr, falsy
expr, failing scan or non-string truthy expr either appends a diagnostic or
crashes. -/
theorem checkRule_ok_good (i j : Nat) (r : Node) (h : checkRule i j r = Except.ok []) :
    GoodRule r := by
  unfold checkRule at h
  split at h
  case h_2 => simp at h
  case h_1 m =>
    rcases hce : checkExpr i j m with e | e1
    · rw [hce] at h; cases h
    rw [hce] at h
    have he1 : e1 = [] := by
      have := h
      simp only [Except.ok.injEq] at this
      exact (List.append_eq_nil.mp this).1
    subst he1
    unfold checkExpr at hce
    rcases hle : mapLookup "expr" m with _ | ev
    · rw [hle] at hce; simp at hce
    rw [hle] at hce
    simp only [] at hce
    by_cases ht : ev.truthy = true
    · rw [if_pos ht] at hce
      cases ev with
      | str s =>
        by_cases hv : V1.is_promql_syntax_valid s = true
        · exact ⟨m, s, rfl, hle, ht, hv⟩
        · simp only [Bool.not_eq_true] at hv
          simp [hv] at hce
      | null => cases hce
      | bool b => cases hce
      | int n => cases hce
      | seq xs => cases hce
      | map kvs => cases hce
    · rw [if_neg ht] at hce
      have : V1.is_promql_syntax_valid "" = false := by rfl
      simp [this] at hce

/-- A rules loop with no diagnostics makes every rule good. -/
theorem checkRules_ok_good (rs : List Node) : ∀ i j, checkRules i j rs = Except.ok [] →
    ∀ r ∈ rs, GoodRule r := by
  induction rs with
  | nil => intro i j h r hr; cases hr
  | cons r rest ih =>
    intro i j h r' hr'
    unfold checkRules at h
    rcases hcr : checkRule i j r with e | e1
    · rw [hcr] at h; cases h
    rw [hcr] at h
    rcases hrs : checkRules i (j + 1) rest with e | e2
    · rw [hrs] at h; cases h
    rw [hrs] at h
    simp only [Except.ok.injEq] at h
    obtain ⟨h1, h2⟩ := List.append_eq_nil.mp h
    subst h1; subst h2
    rcases List.mem_cons.mp hr' with rfl | hmem
    · exact checkRule_ok_good i j r' hcr
    · exact ih i (j + 1) hrs r' hmem

/-- A group that produced no diagnostics is good. -/
theorem checkGroup_ok_good (i : Nat) (g : Node) (h : checkGroup i g = Except.ok []) :
    GoodGroup g := by
  unfold checkGroup at h
  split at h
  case h_2 => simp at h
  case h_1 m =>
    by_cases hk : hasKey "name" m = true
    · simp only [hk, if_true] at h
      rcases hlr : mapLookup "rules" m with _ | rv
      · rw [hlr] at h; simp at h
      rw [hlr] at h
      simp only [] at h
      cases rv with
      | seq rs =>
        simp only [] at h
        rcases hcr : checkRules i 1 rs with e | es
        · rw [hcr] at h; cases h
        rw [hcr] at h
        simp only [List.nil_append, Except.ok.injEq] at h
        subst h
        exact ⟨m, rs, rfl, hk, hlr, checkRules_ok_good rs i 1 hcr⟩
      | null => simp at h
      | bool b => simp at h
      | int n => simp at h
      | str s => simp at h
      | map kvs => simp at h
    · simp only [Bool.not_eq_true] at hk
      simp only [hk, Bool.false_eq_true, if_false] at h
      rcases hlr : mapLookup "rules" m with _ | rv
      · rw [hlr] at h; simp at h
      rw [hlr] at h
      simp only [] at h
      cases rv with
      | seq rs =>
        simp only [] at h
        rcases hcr : checkRules i 1 rs with e | es
        · rw [hcr] at h; cases h
        · rw [hcr] at h; simp at h
      | null => simp at h
      | bool b => simp at h
      | int n => simp at h
      | str s => simp at h
      | map kvs => simp at h

/-- A groups loop with no diagnostics makes every group good. -/
theorem checkGroups_ok_good (gs : List Node) : ∀ i, checkGroups i gs = Except.ok [] →
    ∀ g ∈ gs, GoodGroup g := by
  induction gs with
  | nil => intro i h g hg; cases hg
  | cons g rest ih =>
    intro i h g' hg'
    unfold checkGroups at h
    rcases hcg : checkGroup i g with e | e1
    · rw [hcg] at h; cases h
    rw [hcg] at h
    rcases hgs : checkGroups (i + 1) rest with e | e2
    · rw [hgs] at h; cases h
    rw [hgs] at h
    simp only [Except.ok.injEq] at h
    obtain ⟨h1, h2⟩ := List.append_eq_nil.mp h
    subst h1; subst h2
    rcases List.mem_cons.mp hg' with rfl | hmem
    · exact checkGroup_ok_good i g' hcg
    · exact ih (i + 1) hgs g' hmem

/-- A clean run of validate_prometheus_rules exposes the document
structure: a mapping with a groups sequence all of whose groups are good. -/
theorem validateRules_ok_good (doc : Node) (h : validate_prometheus_rules doc = Except.ok []) :
    ∃ m gs, doc = Node.map m ∧ mapLookup "groups" m = some (Node.seq gs) ∧
      ∀ g ∈ gs, GoodGroup g := by
  unfold validate_prometheus_rules at h
  split at h
  case h_2 => simp at h
  case h_1 m =>
    rcases hlg : mapLookup "groups" m with _ | gv
    · rw [hlg] at h; simp at h
    rw [hlg] at h
    simp only [] at h
    cases gv with
    | seq gs => exact ⟨m, gs, rfl, hlg, checkGroups_ok_good gs 1 h⟩
    | null => simp at h
    | bool b => simp at h
    | int n => simp at h
    | str s => simp at h
    | map kvs => simp at h

/-- The or-empty-list coercion is the identity on sequence values: the only
falsy sequence is the empty one. -/
theorem seq_or_empty (rs : List Node) :
    (if (Node.seq rs).truthy = true then Node.seq rs else Node.seq []) = Node.seq rs := by
  cases rs <;> simp [Node.truthy]

/-- Counting a good rule bumps checked and leaves invalid unchanged: its
expression is truthy and passes the scanner. -/
theorem countRule_good (acc : Nat × Nat) (r : Node) (h : GoodRule r) :
    countRule acc r = Except.ok (acc.1 + 1, acc.2) := by
  obtain ⟨m, s, rfl, hle, ht, hv⟩ := h
  unfold countRule exprOf
  simp only []
  rw [hle]
  simp only [Option.getD_some, ht, if_true]
  unfold promqlPy
  simp only []
  rw [hv]
  simp

/-- Counting a list of good rules adds only to the checked counter. -/
theorem countRules_good (rs : List Node) (h : ∀ r ∈ rs, GoodRule r) :
    ∀ acc : Nat × Nat, ∃ n, countRules acc rs = Except.ok (acc.1 + n, acc.2) := by
  induction rs with
  | nil => intro acc; exact ⟨0, by simp [countRules]⟩
  | cons r rest ih =>
    intro acc
    have h1 := countRule_good acc r (h r (List.mem_cons_self r rest))
    obtain ⟨n, hn⟩ := ih (fun r' hr' => h r' (List.mem_cons_of_mem r hr')) (acc.1 + 1, acc.2)
    refine ⟨n + 1, ?_⟩
    unfold countRules
    rw [h1]
    simp only []
    rw [hn]
    congr 2
    omega

/-- Counting a good group adds only to the checked counter. -/
theorem countGroup_good (acc : Nat × Nat) (g : Node) (h : GoodGroup g) :
    ∃ n, countGroup acc g = Except.ok (acc.1 + n, acc.2) := by
  obtain ⟨m, rs, rfl, _, hlr, hrules⟩ := h
  unfold countGroup
  simp only []
  rw [hlr]
  simp only [Option.getD_some, seq_or_empty]
  exact countRules_good rs hrules acc

/-- Counting a list of good groups adds only to the checked counter. -/
theorem countGroups_good (gs : List Node) (h : ∀ g ∈ gs, GoodGroup g) :
    ∀ acc : Nat × Nat, ∃ n, countGroups acc gs = Except.ok (acc.1 + n, acc.2) := by
  induction gs with
  | nil => intro acc; exact ⟨0, by simp [countGroups]⟩
  | cons g rest ih =>
    intro acc
    obtain ⟨n1, h1⟩ := countGroup_good acc g (h g (List.mem_cons_self g rest))
    obtain ⟨n2, h2⟩ := ih (fun g' hg' => h g' (List.mem_cons_of_mem g hg')) (acc.1 + n1, acc.2)
    refine ⟨n1 + n2, ?_⟩
    unfold countGroups
    rw [h1]
    simp only []
    rw [h2]
    congr 2
    omega

/-- When the structural validator returned no diagnostics, the counting
pass finds zero invalid expressions: every counted expression is the truthy
valid string the validator already accepted. -/
theorem countInvalid_zero (doc : Node) (h : validate_prometheus_rules doc = Except.ok []) :
    (countExprsV1 doc).2 = 0 := by
  obtain ⟨m, gs, rfl, hlg, hgood⟩ := validateRules_ok_good doc h
  obtain ⟨n, hn⟩ := countGroups_good gs hgood (0, 0)
  unfold countExprsV1 countTop
  simp only []
  rw [hlg]
  simp only [Option.getD_some, seq_or_empty]
  rw [hn]
  rfl

/-- Claim C2.  Every report returned by api_validate_yaml has valid true
exactly when its error list is empty and its invalid count is zero.  The
code computes valid as emptiness of the error list alone, and the bridge is
that an empty error list forces a zero invalid count; a parse failure
reports a non-empty error list with valid false. -/
theorem report_valid_iff (raw : Except String Node) (ttype : String) (r : Report)
    (h : api_validate_yaml raw ttype = Except.ok r) :
    r.valid = true ↔ (r.errors = [] ∧ r.promql_invalid = 0) := by
  unfold api_validate_yaml load_yaml at h
  cases raw with
  | error e =>
    simp only [] at h
    cases h
    simp
  | ok doc =>
    simp only [] at h
    split at h
    · rcases hv : validate_prometheus_rules doc with e | errs
      · rw [hv] at h; cases h
      rw [hv] at h
      simp only [] at h
      cases h
      cases errs with
      | nil =>
        simp [countInvalid_zero doc hv]
      | cons e es => simp [List.isEmpty]
    · rcases hv : validate_alertmanager_config doc with e | errs
      · rw [hv] at h; cases h
      rw [hv] at h
      simp only [] at h
      cases h
      cases errs <;> simp [List.isEmpty]

/-- Witness for claim C2: a concrete valid report from a one-rule document. -/
theorem report_valid_iff_witness :
    (Report.mk true [] 1 0).valid = true ↔
      ((Report.mk true [] 1 0).errors = [] ∧ (Report.mk true [] 1 0).promql_invalid = 0) :=
  report_valid_iff (Except.ok (Node.map [("groups", Node.seq
    [Node.map [("name", Node.str "g"), ("rules", Node.seq
      [Node.map [("expr", Node.str "up == 0")]])]])])) "rule" _ (by rfl)


/-- Claim C7 as amended.  The claim required every group of a valid
rule-set report to have a non-empty name value; the code only ever tests
presence of the name key (see the counterexample with an empty name), so
the amended statement is: when validate_document on a rule document returns
a report with valid true, every group is a mapping that has a name key and
a rules value that is a sequence. -/
theorem valid_groups_have_name_and_rules (doc : Node) (r : Report)
    (h : api_validate_yaml (Except.ok doc) "rule" = Except.ok r) (hv : r.valid = true) :
    ∃ m gs, doc = Node.map m ∧ mapLookup "groups" m = some (Node.seq gs) ∧
      ∀ g ∈ gs, ∃ gm, g = Node.map gm ∧ hasKey "name" gm = true ∧
        ∃ rs, mapLookup "rules" gm = some (Node.seq rs) := by
  unfold api_validate_yaml load_yaml at h
  simp only [if_pos] at h
  rcases hval : validate_prometheus_rules doc with e | errs
  · rw [hval] at h; cases h
  rw [hval] at h
  simp only [] at h
  cases h
  simp only [] at hv
  have herrs : errs = [] := by
    cases errs with
    | nil => rfl
    | cons e es => simp [List.isEmpty] at hv
  subst herrs
  obtain ⟨m, gs, rfl, hlg, hgood⟩ := validateRules_ok_good doc hval
  refine ⟨m, gs, rfl, hlg, ?_⟩
  intro g hg
  obtain ⟨gm, rs, rfl, hname, hrules, _⟩ := hgood g hg
  exact ⟨gm, rfl, hname, rs, hrules⟩

/-- Witness for claim C7: a concrete one-group document instantiating the
amended theorem. -/
theorem valid_groups_have_name_and_rules_witness :
    ∃ m gs, Node.map [("groups", Node.seq
        [Node.map [("name", Node.str "g"), ("rules", Node.seq [])]])] = Node.map m ∧
      mapLookup "groups" m = some (Node.seq gs) ∧
      ∀ g ∈ gs, ∃ gm, g = Node.map gm ∧ hasKey "name" gm = true ∧
        ∃ rs, mapLookup "rules" gm = some (Node.seq rs) :=
  valid_groups_have_name_and_rules
    (Node.map [("groups", Node.seq [Node.map [("name", Node.str "g"), ("rules", Node.seq [])]])])
    (Report.mk true [] 0 0) (by rfl) (by rfl)

/-- Appending strings appends their character lists. -/
theorem str_data_append (x y : String) : (x ++ y).data = x.data ++ y.data := rfl

/-- Two string names produce the same duplicate diagnostic only when they
are equal. -/
theorem dupMsg_str_inj (a b : String) (h : dupMsg (Node.str a) = dupMsg (Node.str b)) :
    a = b := by
  have hd := congrArg String.data h
  simp only [dupMsg, pyStr, str_data_append] at hd
  have h1 := List.append_cancel_right hd
  have h2 := List.append_cancel_left h1
  cases a
  cases b
  exact congrArg String.mk h2

/-- Whether a receiver entry is a mapping whose name value is exactly the
given string. -/
def nameIs (x : String) (r : Node) : Bool :=
  match r with
  | .map m =>
    match mapLookup "name" m with
    | some (.str s) => s == x
    | _ => false
  | _ => false

/-- How many receivers of the sequence carry the given string name. -/
def strNameCount (x : String) (rs : List Node) : Nat :=
  rs.countP (nameIs x)

/-- A receiver that is a mapping with a string-valued name. -/
def WfStrName (r : Node) : Prop :=
  ∃ m s, r = Node.map m ∧ mapLookup "name" m = some (Node.str s)

/-- Set membership after adding one element. -/
theorem nodeMem_append_one (v w : Node) (l : List Node) :
    nodeMem v (l ++ [w]) = (nodeMem v l || nodeEq v w) := by
  simp [nodeMem, List.any_append]

/-- The receivers loop on well-formed string-named receivers never crashes
and emits, for each name, one duplicate diagnostic per occurrence beyond
the first (beyond the zeroth when the name was already in the carried
set). -/
theorem receiverLoop_dup_count (rs : List Node) : ∀ (idx : Nat) (names : List Node),
    (∀ r ∈ rs, WfStrName r) →
    ∃ ds ns, receiverLoop idx names rs = Except.ok (ds, ns) ∧
      ∀ x, ds.count (dupMsg (Node.str x)) =
        strNameCount x rs - (if nodeMem (Node.str x) names then 0 else 1) := by
  induction rs with
  | nil =>
    intro idx names hwf
    exact ⟨[], names, rfl, by intro x; simp [strNameCount]⟩
  | cons r rest ih =>
    intro idx names hwf
    obtain ⟨m, s, rfl, hname⟩ := hwf _ (List.mem_cons_self r rest)
    have hwfrest : ∀ r ∈ rest, WfStrName r := fun r hr => hwf r (List.mem_cons_of_mem _ hr)
    have hcount_eq : ∀ x, x = s → strNameCount x (Node.map m :: rest) = strNameCount x rest + 1 := by
      intro x hx
      subst hx
      simp [strNameCount, List.countP_cons, nameIs, hname]
    have hcount_ne : ∀ x, x ≠ s → strNameCount x (Node.map m :: rest) = strNameCount x rest := by
      intro x hx
      simp only [strNameCount, List.countP_cons, nameIs, hname]
      have : (s == x) = false := by
        simp only [beq_eq_false_iff_ne]
        exact fun hc => hx hc.symm
      simp [this]
    by_cases hmem : nodeMem (Node.str s) names = true
    · obtain ⟨ds, ns, hloop, hcnt⟩ := ih (idx + 1) names hwfrest
      refine ⟨dupMsg (Node.str s) :: ds, ns, ?_, ?_⟩
      · unfold receiverLoop
        simp only []
        rw [hname]
        simp only [Node.hashable, hmem, hloop, if_true]
      · intro x
        by_cases hx : x = s
        · subst hx
          rw [List.count_cons_self, hcnt x, hcount_eq x rfl]
          simp only [hmem, if_true]
          omega
        · have hne : dupMsg (Node.str x) ≠ dupMsg (Node.str s) := by
            intro hc
            exact hx (dupMsg_str_inj x s hc)
          rw [List.count_cons_of_ne hne, hcnt x, hcount_ne x hx]
    · obtain ⟨ds, ns, hloop, hcnt⟩ := ih (idx + 1) (names ++ [Node.str s]) hwfrest
      refine ⟨ds, ns, ?_, ?_⟩
      · have hmemf : nodeMem (Node.str s) names = false := by simpa using hmem
        unfold receiverLoop
        simp only []
        rw [hname]
        simp only [Node.hashable, hmemf, Bool.false_eq_true, if_true, if_false, hloop]
      · intro x
        rw [hcnt x]
        by_cases hx : x = s
        · subst hx
          have hmem' : nodeMem (Node.str x) (names ++ [Node.str x]) = true := by
            simp [nodeMem_append_one, nodeEq]
          have hmemf : nodeMem (Node.str x) names = false := by simpa using hmem
          rw [hcount_eq x rfl, if_pos hmem', if_neg (by simp [hmemf])]
          omega
        · have heqne : nodeEq (Node.str x) (Node.str s) = false := by
            simp only [nodeEq, beq_eq_false_iff_ne]
            exact hx
          have hmem' : nodeMem (Node.str x) (names ++ [Node.str s]) = nodeMem (Node.str x) names := by
            rw [nodeMem_append_one, heqne]
            simp
          rw [hmem', hcount_ne x hx]

/-- Claim C6 as amended.  The claim required exactly one duplicate
diagnostic per repeated name for any number of repeats; the code emits one
diagnostic per occurrence beyond the first (see the three-repeat
counterexample), which coincides with the claim only for exactly two
occurrences.  Amended statement: for a receivers sequence of mappings with
string names, validation of the document emits, for every name x, exactly
count(x) minus one duplicate diagnostics naming x. -/
theorem duplicate_diag_per_extra_occurrence (rs : List Node)
    (hwf : ∀ r ∈ rs, WfStrName r) :
    ∃ ds ns, receiverLoop 1 [] rs = Except.ok (ds, ns) ∧
      validate_alertmanager_config (Node.map [("receivers", Node.seq rs)]) =
        Except.ok ("Missing \x27route\x27" :: ds) ∧
      ∀ x, ds.count (dupMsg (Node.str x)) = strNameCount x rs - 1 := by
  obtain ⟨ds, ns, hloop, hcnt⟩ := receiverLoop_dup_count rs 1 [] hwf
  refine ⟨ds, ns, hloop, ?_, ?_⟩
  · unfold validate_alertmanager_config
    simp only []
    rw [show mapLookup "receivers" [("receivers", Node.seq rs)] = some (Node.seq rs) from rfl]
    simp only [seq_or_empty]
    rw [hloop]
    simp only []
    rw [show mapLookup "route" [("receivers", Node.seq rs)] = none from rfl]
    simp [inhibitErrs, mapLookup]
  · intro x
    rw [hcnt x]
    simp [nodeMem]

/-- Witness for claim C6: two receivers named x give exactly one duplicate
diagnostic. -/
theorem duplicate_diag_per_extra_occurrence_witness :
    ∃ ds ns,
      receiverLoop 1 []
        [Node.map [("name", Node.str "x")], Node.map [("name", Node.str "x")]] =
        Except.ok (ds, ns) ∧
      validate_alertmanager_config (Node.map [("receivers", Node.seq
        [Node.map [("name", Node.str "x")], Node.map [("name", Node.str "x")]])]) =
        Except.ok ("Missing \x27route\x27" :: ds) ∧
      ∀ x, ds.count (dupMsg (Node.str x)) =
        strNameCount x [Node.map [("name", Node.str "x")], Node.map [("name", Node.str "x")]] - 1 :=
  duplicate_diag_per_extra_occurrence
    [Node.map [("name", Node.str "x")], Node.map [("name", Node.str "x")]]
    (by
      intro r hr
      simp only [List.mem_cons, List.not_mem_nil, or_false] at hr
      rcases hr with rfl | rfl <;> exact ⟨_, "x", rfl, rfl⟩)

/-- A receiver that is a mapping whose name value is hashable (any
scalar: null, boolean, number or string). -/
def WfHashName (r : Node) : Prop :=
  ∃ m v, r = Node.map m ∧ mapLookup "name" m = some v ∧ v.hashable = true

/-- On receivers that are mappings with hashable names the loop never
crashes and never emits a type diagnostic: every diagnostic it produces is
a duplicate-name diagnostic. -/
theorem receiverLoop_only_dup (rs : List Node) : ∀ (idx : Nat) (names : List Node),
    (∀ r ∈ rs, WfHashName r) →
    ∃ ds ns, receiverLoop idx names rs = Except.ok (ds, ns) ∧
      ∀ d ∈ ds, ∃ v, d = dupMsg v := by
  induction rs with
  | nil =>
    intro idx names hwf
    exact ⟨[], names, rfl, by intro d hd; cases hd⟩
  | cons r rest ih =>
    intro idx names hwf
    obtain ⟨m, v, rfl, hname, hhash⟩ := hwf _ (List.mem_cons_self r rest)
    have hwfrest : ∀ r ∈ rest, WfHashName r := fun r hr => hwf r (List.mem_cons_of_mem _ hr)
    by_cases hmem : nodeMem v names = true
    · obtain ⟨ds, ns, hloop, hdup⟩ := ih (idx + 1) names hwfrest
      refine ⟨dupMsg v :: ds, ns, ?_, ?_⟩
      · unfold receiverLoop
        simp only []
        rw [hname]
        simp only [hhash, hmem, hloop, if_true]
      · intro d hd
        rcases List.mem_cons.mp hd with rfl | hmemd
        · exact ⟨v, rfl⟩
        · exact hdup d hmemd
    · have hmemf : nodeMem v names = false := by simpa using hmem
      obtain ⟨ds, ns, hloop, hdup⟩ := ih (idx + 1) (names ++ [v]) hwfrest
      refine ⟨ds, ns, ?_, hdup⟩
      unfold receiverLoop
      simp only []
      rw [hname]
      simp only [hhash, hmemf, Bool.false_eq_true, if_true, if_false, hloop]

/-- Claim C10 as amended.  The claim let a mapping-valued name participate
in duplicate detection exactly like a string; in fact a mapping is
unhashable and the set probe raises TypeError (see the counterexample), so
the amended statement keeps only the hashable scalars: the validator checks
only presence of the name key, a number or null name yields no type
diagnostic, and such names participate in duplicate detection and the
reference check by value.  Concretely, duplicate integer names 1,1 give
exactly the one duplicate diagnostic rendering the number, a null name is
accepted silently, and the reference check matches the string receiver;
generally, hashable names can only ever produce duplicate diagnostics. -/
theorem receiver_name_untyped :
    validate_alertmanager_config (Node.map
      [("route", Node.map [("receiver", Node.str "a")]),
       ("receivers", Node.seq
         [Node.map [("name", Node.int 1)],
          Node.map [("name", Node.int 1)],
          Node.map [("name", Node.null)],
          Node.map [("name", Node.str "a")]])]) =
      Except.ok ["Duplicate receiver name \x271\x27"] ∧
    ∀ (rs : List Node) (idx : Nat) (names : List Node), (∀ r ∈ rs, WfHashName r) →
      ∃ ds ns, receiverLoop idx names rs = Except.ok (ds, ns) ∧
        ∀ d ∈ ds, ∃ v, d = dupMsg v :=
  ⟨by rfl, fun rs idx names h => receiverLoop_only_dup rs idx names h⟩

/-- Witness for claim C10: the universally quantified part applied to two
integer-named receivers. -/
theorem receiver_name_untyped_witness :
    ∃ ds ns,
      receiverLoop 1 [] [Node.map [("name", Node.int 1)], Node.map [("name", Node.int 1)]] =
        Except.ok (ds, ns) ∧
      ∀ d ∈ ds, ∃ v, d = dupMsg v :=
  receiver_name_untyped.2 [Node.map [("name", Node.int 1)], Node.map [("name", Node.int 1)]] 1 []
    (by
      intro r hr
      simp only [List.mem_cons, List.not_mem_nil, or_false] at hr
      rcases hr with rfl | rfl <;> exact ⟨_, Node.int 1, rfl, rfl, rfl⟩)
